import Mathlib

/-!
Formal model of `partcyborg/haproxyctl` (`cmd/haproxyctl/models.go`).

Conventions of the embedding:
* Go's signed 64-bit machine integers are modelled as `Nat`/`Int` with the
  explicit bound `2 ^ 63` exactly where the Go code checks `1 << 63`;
* Go strings are `String` / `List Char`;
* fallible Go functions return `Option` / `Except`;
* the stateful methods (`Duration.UnmarshalCSV`, `setupClient`) are written
  in explicit state-passing style.
-/

namespace Haproxyctl

/-- Unit table of Go `time.ParseDuration` (`unitMap` in `time/format.go`):
nanoseconds per unit token. -/
def unitMap (u : List Char) : Option Nat :=
  if u = ['n', 's'] then some 1
  else if u = ['u', 's'] then some 1000
  else if u = ['µ', 's'] then some 1000
  else if u = ['μ', 's'] then some 1000
  else if u = ['m', 's'] then some 1000000
  else if u = ['s'] then some 1000000000
  else if u = ['m'] then some 60000000000
  else if u = ['h'] then some 3600000000000
  else none

/-- Go `time.leadingInt`: consume leading decimal digits of `s`,
accumulating onto `x`; `none` models the overflow error (raised when
`x > 1<<63/10` before a step, or the accumulated value exceeds `1<<63`). -/
def leadingInt : Nat → List Char → Option (Nat × List Char)
  | x, [] => some (x, [])
  | x, c :: rest =>
    if c.isDigit then
      if x > 2 ^ 63 / 10 then none
      else
        let x1 := x * 10 + (c.toNat - 48)
        if x1 > 2 ^ 63 then none
        else leadingInt x1 rest
    else some (x, c :: rest)

/-- Go `time.leadingFraction`: consume digits after the decimal point,
tracking the scale (a power of ten); once overflow is hit, further digits
are consumed without updating `x` or `scale`. -/
def leadingFraction : Nat → Nat → Bool → List Char → Nat × Nat × List Char
  | x, scale, _, [] => (x, scale, [])
  | x, scale, overflow, c :: rest =>
    if c.isDigit then
      if overflow then leadingFraction x scale overflow rest
      else if x > (2 ^ 63 - 1) / 10 then leadingFraction x scale true rest
      else
        let y := x * 10 + (c.toNat - 48)
        if y > 2 ^ 63 then leadingFraction x scale true rest
        else leadingFraction y (scale * 10) false rest
    else (x, scale, c :: rest)

/-- The optional fractional component `(\.[0-9]*)?` of one term of
Go `time.ParseDuration`: returns `(f, scale, rest, post)`, where `post`
records whether any fraction digit was consumed. -/
def fracPart : List Char → Nat × Nat × List Char × Bool
  | '.' :: r =>
    let res := leadingFraction 0 1 false r
    (res.1, res.2.1, res.2.2, decide (res.2.2.length ≠ r.length))
  | s => (0, 1, s, false)

/-- The component loop of Go `time.ParseDuration` (`for s != "" { ... }`),
with explicit fuel (each iteration consumes at least one character, so fuel
`|s| + 1` suffices).  `d` is the accumulated nanosecond total.  The branch
`if !pre && !post` of the Go code is rendered as the equivalent condition
`s1.length = input.length ∧ post = false`.  The fractional contribution
`uint64(float64(f) * (float64(unit) / scale))` is modelled by the exact
integer quotient `f * unit / scale`, which agrees with Go's `float64`
computation whenever that computation is exact (it is on every input
appearing in this development). -/
def durLoop : Nat → Nat → List Char → Option Nat
  | 0, _, _ => none
  | _ + 1, d, [] => some d
  | fuel + 1, d, c :: rest =>
    if c = '.' ∨ c.isDigit then
      match leadingInt 0 (c :: rest) with
      | none => none
      | some (v, s1) =>
        let fp := fracPart s1
        let f := fp.1
        let scale := fp.2.1
        let s2 := fp.2.2.1
        let post := fp.2.2.2
        if s1.length = (c :: rest).length ∧ post = false then none
        else
          let u := s2.takeWhile fun ch => !(ch = '.' || ch.isDigit)
          let s3 := s2.dropWhile fun ch => !(ch = '.' || ch.isDigit)
          if u = [] then none
          else
            match unitMap u with
            | none => none
            | some unit =>
              if v > 2 ^ 63 / unit then none
              else
                let v1 := v * unit
                let v2 := if 0 < f then v1 + f * unit / scale else v1
                if 0 < f ∧ v2 > 2 ^ 63 then none
                else if d + v2 > 2 ^ 63 then none
                else durLoop fuel (d + v2) s3
    else none

/-- The sign consumption `[-+]?` at the head of Go `time.ParseDuration`. -/
def consumeSign : List Char → Bool × List Char
  | [] => (false, [])
  | c :: rest =>
    if c = '-' then (true, rest)
    else if c = '+' then (false, rest)
    else (false, c :: rest)

/-- Go `time.ParseDuration` on a character list: `some` is the parsed
duration in nanoseconds (a signed 64-bit quantity), `none` any of Go's
parse errors. -/
def parseDuration (s0 : List Char) : Option Int :=
  let sg := consumeSign s0
  let neg := sg.1
  let s := sg.2
  if s = ['0'] then some 0
  else if s = [] then none
  else
    match durLoop (s.length + 1) 0 s with
    | none => none
    | some d =>
      if neg then some (-(d : Int))
      else if d > 2 ^ 63 - 1 then none
      else some (d : Int)

/-- `Duration.UnmarshalCSV` from `models.go`, in state-passing style: the
receiver's nanosecond value goes in as `date` and the updated value comes
out.  On the empty cell the receiver is left unchanged and no error is
reported; otherwise Go appends `"s"` and calls `time.ParseDuration`,
assigning the result (0 on a parse error) to the receiver.  The returned
pair is `(errorOccurred, newDurationNs)`. -/
def unmarshalCSV (date : Int) (csv : String) : Bool × Int :=
  if csv = "" then (false, date)
  else
    match parseDuration (csv.data ++ ['s']) with
    | some d => (false, d)
    | none => (true, 0)

/-- `Duration.MarshalCSV` from `models.go`:
`fmt.Sprintf("%d", date.Nanoseconds())`. -/
def marshalCSV (date : Int) : String := toString date

/-- Inner loop of Go `time.fmtInt`: prepend the decimal digits of `v`
(nothing when `v = 0`). -/
def fmtIntLoop (v : Nat) (buf : List Char) : List Char :=
  if h : v = 0 then buf
  else fmtIntLoop (v / 10) (Char.ofNat (v % 10 + 48) :: buf)
termination_by v
decreasing_by exact Nat.div_lt_self (Nat.pos_of_ne_zero h) (by norm_num)

/-- Go `time.fmtInt`: prepend the decimal representation of `v`. -/
def fmtIntGo (buf : List Char) (v : Nat) : List Char :=
  if v = 0 then '0' :: buf else fmtIntLoop v buf

/-- Loop of Go `time.fmtFrac`: `prec` steps printing the low digits of `v`
right-to-left, omitting trailing zeros (`pr` is Go's `print` flag). -/
def fmtFracLoop : Nat → Nat → Bool → List Char → List Char × Nat × Bool
  | 0, v, pr, buf => (buf, v, pr)
  | prec + 1, v, pr, buf =>
    let digit := v % 10
    let pr1 := pr || decide (digit ≠ 0)
    let buf1 := if pr1 then Char.ofNat (digit + 48) :: buf else buf
    fmtFracLoop prec (v / 10) pr1 buf1

/-- Go `time.fmtFrac`: print `prec` fractional digits of `v` (trailing
zeros, and the decimal point when nothing is printed, omitted); returns the
new buffer and `v` shifted right by `prec` digits. -/
def fmtFracGo (buf : List Char) (v : Nat) (prec : Nat) : List Char × Nat :=
  let r := fmtFracLoop prec v false buf
  (if r.2.2 then '.' :: r.1 else r.1, r.2.1)

/-- `Duration.String` from `models.go`, that is Go `time.Duration.String`
(`format` in `time/time.go`) applied to the nanosecond count: `"0s"` for
zero, `ns`/`µs`/`ms` rendering below one second, `h`/`m`/`s` rendering
otherwise, with a leading `-` for negative durations (Go's early return on
`u == 0` is equivalent because `u = 0` forces `neg = false`). -/
def durationString (d : Int) : String :=
  let u := d.natAbs
  let neg := decide (d < 0)
  let core : List Char :=
    if u < 1000000000 then
      if u = 0 then ['0', 's']
      else
        let pu :=
          if u < 1000 then ((0 : Nat), ['n', 's'])
          else if u < 1000000 then (3, ['µ', 's'])
          else (6, ['m', 's'])
        let fr := fmtFracGo pu.2 u pu.1
        fmtIntGo fr.1 fr.2
    else
      let fr := fmtFracGo ['s'] u 9
      let buf := fmtIntGo fr.1 (fr.2 % 60)
      let v := fr.2 / 60
      if 0 < v then
        let buf1 := fmtIntGo ('m' :: buf) (v % 60)
        let v1 := v / 60
        if 0 < v1 then fmtIntGo ('h' :: buf1) v1 else buf1
      else buf
  ⟨if neg then '-' :: core else core⟩

/-- Decimal value of a digit string, most significant digit first, onto the
accumulator `x` (the reference value that `leadingInt` computes when no
overflow occurs). -/
def decValAux : Nat → List Char → Nat
  | x, [] => x
  | x, c :: rest => decValAux (x * 10 + (c.toNat - 48)) rest

/-- `EntryType` from `models.go`: Frontend, Backend, Server or Socket
(Go `iota` ordinals 0, 1, 2, 3). -/
inductive EntryType
  | Frontend
  | Backend
  | Server
  | Socket
deriving DecidableEq

/-- The Go `iota` ordinal of each `EntryType` constant. -/
def EntryType.ordinal : EntryType → Nat
  | .Frontend => 0
  | .Backend => 1
  | .Server => 2
  | .Socket => 3

/-- Modelled from the spec: the statistics decode routine that interprets
the CSV `type` column is not part of `models.go` (only the `EntryType`
declaration and the tagged `Statistic.Type` field are there); per the spec,
"the `type` column decodes as an ordinal matching the EntryType
enumeration; an out-of-range ordinal is a decode error". -/
def decodeEntryType : Nat → Option EntryType
  | 0 => some .Frontend
  | 1 => some .Backend
  | 2 => some .Server
  | 3 => some .Socket
  | _ => none

/-- `Action` from `models.go`: `type Action string`. -/
abbrev Action := String

/-- `ActionSetStateToReady` from `models.go`. -/
def ActionSetStateToReady : Action := "ready"

/-- `ActionSetStateToDrain` from `models.go`. -/
def ActionSetStateToDrain : Action := "drain"

/-- `ActionSetStateToMaint` from `models.go`. -/
def ActionSetStateToMaint : Action := "maint"

/-- `ActionHealthDisableChecks` from `models.go`. -/
def ActionHealthDisableChecks : Action := "dhlth"

/-- `ActionHealthEnableChecks` from `models.go`. -/
def ActionHealthEnableChecks : Action := "ehlth"

/-- `ActionHealthForceUp` from `models.go`. -/
def ActionHealthForceUp : Action := "hrunn"

/-- `ActionHealthForceNoLB` from `models.go`. -/
def ActionHealthForceNoLB : Action := "hnolb"

/-- `ActionHealthForceDown` from `models.go`. -/
def ActionHealthForceDown : Action := "hdown"

/-- `ActionAgentDisablechecks` from `models.go`. -/
def ActionAgentDisablechecks : Action := "dagent"

/-- `ActionAgentEnablechecks` from `models.go`. -/
def ActionAgentEnablechecks : Action := "eagent"

/-- `ActionAgentForceUp` from `models.go`. -/
def ActionAgentForceUp : Action := "arunn"

/-- `ActionAgentForceDown` from `models.go`. -/
def ActionAgentForceDown : Action := "adown"

/-- `ActionKillSessions` from `models.go`. -/
def ActionKillSessions : Action := "shutdown"

/-- The state-change constants of the `Action` `const` block, in source
declaration order. -/
def stateActionConstants : List Action :=
  [ActionSetStateToReady, ActionSetStateToDrain, ActionSetStateToMaint]

/-- The health-check toggle constants of the `Action` `const` block
(the `ActionHealth*` names), in source declaration order. -/
def healthToggleConstants : List Action :=
  [ActionHealthDisableChecks, ActionHealthEnableChecks, ActionHealthForceUp,
   ActionHealthForceNoLB, ActionHealthForceDown]

/-- The agent-check toggle constants of the `Action` `const` block
(the `ActionAgent*` names), in source declaration order. -/
def agentToggleConstants : List Action :=
  [ActionAgentDisablechecks, ActionAgentEnablechecks, ActionAgentForceUp,
   ActionAgentForceDown]

/-- Every constant of the `Action` `const` block of `models.go`, in source
declaration order. -/
def actionConstants : List Action :=
  stateActionConstants ++ healthToggleConstants ++ agentToggleConstants ++
    [ActionKillSessions]

/-- Redirect policy held in a Go `http.Client.CheckRedirect` field:
`defaultFollow` is the nil field (follow up to 10 redirects),
`useLastResponse` a function returning `http.ErrUseLastResponse`,
`custom` any other caller-supplied function (distinguished by a handle). -/
inductive RedirectPolicy
  | defaultFollow
  | useLastResponse
  | custom (id : Nat)
deriving DecidableEq

/-- Abstraction of Go `http.Client`: `CheckRedirect` is modelled exactly;
the remaining fields (`Transport`, `Jar`, `Timeout`) are opaque handles,
carried along so that their preservation can be stated. -/
structure HttpClient where
  transport : Nat
  checkRedirect : RedirectPolicy
  jar : Nat
  timeout : Nat
deriving DecidableEq

/-- `&http.Client{}`: every field zero-valued, `CheckRedirect = nil`. -/
def defaultHttpClient : HttpClient :=
  { transport := 0, checkRedirect := .defaultFollow, jar := 0, timeout := 0 }

/-- `HAProxyConfig` from `models.go`.  `URL` holds the parsed endpoint in
its string form; `client = none` models the nil `*http.Client`. -/
structure HAProxyConfig where
  URL : String
  StatsPath : String
  Username : String
  Password : String
  client : Option HttpClient
  setupdone : Bool
deriving DecidableEq

/-- `ConfigOption` from `models.go` (`func(*HAProxyConfig) error`) in
state-passing style. -/
abbrev ConfigOption := HAProxyConfig → Except String HAProxyConfig

/-- The base-URL normalization performed by `NewHAProxyConfig`:
`fmt.Sprintf("%s/", strings.TrimRight(proxyUrl, "/"))`. -/
def normalizeBase (s : String) : String :=
  ⟨(s.data.reverse.dropWhile fun c => c = '/').reverse ++ ['/']⟩

/-- The config as first built inside `NewHAProxyConfig`:
`&HAProxyConfig{URL: *endpoint}` with Go zero values everywhere else. -/
def initConfig (endpoint : String) : HAProxyConfig :=
  { URL := endpoint, StatsPath := "", Username := "", Password := "",
    client := none, setupdone := false }

/-- `HAProxyConfig.setupClient` from `models.go`: a no-op when `setupdone`
is already set; otherwise allocate a fresh client if none was injected, set
its `CheckRedirect` to the use-last-response function and mark
`setupdone`. -/
def setupClient (c : HAProxyConfig) : HAProxyConfig :=
  if c.setupdone then c
  else
    let cl := c.client.getD defaultHttpClient
    { c with client := some { cl with checkRedirect := .useLastResponse },
             setupdone := true }

/-- The option loop of `NewHAProxyConfig`: apply the options in the order
given, aborting with the first error. -/
def applyOpts : List ConfigOption → HAProxyConfig → Except String HAProxyConfig
  | [], c => .ok c
  | opt :: rest, c =>
    match opt c with
    | .error e => .error e
    | .ok c1 => applyOpts rest c1

/-- `NewHAProxyConfig` from `models.go`.  The parameter `urlParse`
abstracts Go `net/url.Parse` (the parsed `url.URL` is represented by its
string form; on the well-formed URLs appearing below Go's parse succeeds
and round-trips through `String()`). -/
def newHAProxyConfig (urlParse : String → Except String String)
    (proxyUrl : String) (opts : List ConfigOption) :
    Except String HAProxyConfig :=
  match urlParse (normalizeBase proxyUrl) with
  | .error e => .error e
  | .ok endpoint =>
    match applyOpts opts (initConfig endpoint) with
    | .error e => .error e
    | .ok c => .ok (setupClient c)

/-- `WithStatsPath` from `models.go`. -/
def WithStatsPath (path : String) : ConfigOption :=
  fun c => .ok { c with StatsPath := path }

/-- Modelled from the spec: `SetCredentialsFromAuthString` is not part of
`models.go` (only its caller `WithAuthString` is); per the spec it parses
"Basic-Auth credentials from a single `user:pass` string" and a "malformed
auth string (missing separator)" is an error. -/
def SetCredentialsFromAuthString (c : HAProxyConfig) (auth : String) :
    Except String HAProxyConfig :=
  match auth.splitOn ":" with
  | [] => .error "malformed auth string"
  | [_] => .error "malformed auth string"
  | user :: rest =>
    .ok { c with Username := user, Password := String.intercalate ":" rest }

/-- `WithAuthString` from `models.go`. -/
def WithAuthString (auth : String) : ConfigOption :=
  fun c => SetCredentialsFromAuthString c auth

/-- `WithAuthInfo` from `models.go`. -/
def WithAuthInfo (user pass : String) : ConfigOption :=
  fun c => .ok { c with Username := user, Password := pass }

/-- `WithHttpClient` from `models.go`; `none` models injecting a nil
`*http.Client`. -/
def WithHttpClient (client : Option HttpClient) : ConfigOption :=
  fun c => .ok { c with client := client }

/-- The recognized configuration options of the package, as data: Go's
`ConfigOption` values are arbitrary functions, but the package exports
exactly these four constructors, and only code inside the package can reach
the unexported `client` and `setupdone` fields. -/
inductive OptSpec
  | statsPath (path : String)
  | authString (auth : String)
  | authInfo (user pass : String)
  | httpClient (client : Option HttpClient)

/-- Interpretation of `OptSpec` by the corresponding option of
`models.go`. -/
def toOption : OptSpec → ConfigOption
  | .statsPath p => WithStatsPath p
  | .authString a => WithAuthString a
  | .authInfo u p => WithAuthInfo u p
  | .httpClient cl => WithHttpClient cl

/-- Modelled from the spec: the stats request target is
"`<base-url>/<stats-path>`"; with the base URL already slash-terminated
(the stored `URL` always is) this is string concatenation. -/
def resolvedTarget (c : HAProxyConfig) : String := c.URL ++ c.StatsPath

/-! ## Helper lemmas -/

theorem pow63_eq : (2 : Nat) ^ 63 = 9223372036854775808 := by norm_num

theorem decValAux_ge (ds : List Char) : ∀ x : Nat, x ≤ decValAux x ds := by
  induction ds with
  | nil => intro x; exact le_refl x
  | cons c r ih =>
    intro x
    exact le_trans (by omega) (ih (x * 10 + (c.toNat - 48)))

theorem isDigit_ne_dash {c : Char} (h : c.isDigit = true) : c ≠ '-' := by
  intro h2; subst h2; exact absurd h (by decide)

theorem isDigit_ne_plus {c : Char} (h : c.isDigit = true) : c ≠ '+' := by
  intro h2; subst h2; exact absurd h (by decide)

/-- On a digit string within the 64-bit bound followed by the unit `s`,
`leadingInt` consumes exactly the digits and no overflow check fires. -/
theorem leadingInt_digits (ds : List Char) :
    ∀ x : Nat, (∀ c ∈ ds, c.isDigit = true) → decValAux x ds ≤ 9223372036 →
    leadingInt x (ds ++ ['s']) = some (decValAux x ds, ['s']) := by
  induction ds with
  | nil =>
    intro x _ _
    rw [List.nil_append, leadingInt, if_neg]
    · rfl
    · decide
  | cons c r ih =>
    intro x hdig hb
    have hc : c.isDigit = true := hdig c (List.mem_cons_self c r)
    have hmono : x * 10 + (c.toNat - 48) ≤ decValAux x (c :: r) :=
      decValAux_ge r (x * 10 + (c.toNat - 48))
    have hx1 : x * 10 + (c.toNat - 48) ≤ 9223372036 := le_trans hmono hb
    have hx : x ≤ 9223372036 := by omega
    have h1 : ¬ x > 2 ^ 63 / 10 := by rw [pow63_eq]; omega
    have h2 : ¬ x * 10 + (c.toNat - 48) > 2 ^ 63 := by rw [pow63_eq]; omega
    rw [List.cons_append, leadingInt, if_pos hc, if_neg h1, if_neg h2]
    have heq : decValAux x (c :: r) = decValAux (x * 10 + (c.toNat - 48)) r := rfl
    rw [heq]
    exact ih (x * 10 + (c.toNat - 48))
      (fun ch hch => hdig ch (List.mem_cons_of_mem c hch))
      (by rw [← heq]; exact hb)

theorem durLoop_nil (fuel d : Nat) : durLoop (fuel + 1) d [] = some d := rfl

/-- One pass of the `ParseDuration` component loop when the remaining input
after the digits is exactly the unit `s` and no overflow check fires. -/
theorem durLoop_seconds (fuel d v : Nat) (c : Char) (rest : List Char)
    (hcd : c = '.' ∨ c.isDigit = true)
    (hli : leadingInt 0 (c :: rest) = some (v, ['s']))
    (hlen : ¬ ((1 : Nat) = (c :: rest).length))
    (hv : ¬ v > 2 ^ 63 / 1000000000)
    (hd : ¬ d + v * 1000000000 > 2 ^ 63) :
    durLoop (fuel + 1) d (c :: rest) = durLoop fuel (d + v * 1000000000) [] := by
  rw [durLoop, if_pos hcd, hli]
  dsimp only
  have hfp : fracPart ['s'] = (0, 1, ['s'], false) := rfl
  rw [hfp]
  dsimp only
  have htw : List.takeWhile (fun ch => !(ch = '.' || ch.isDigit)) ['s'] = ['s'] := rfl
  have hdw : List.dropWhile (fun ch => !(ch = '.' || ch.isDigit)) ['s'] = [] := rfl
  rw [htw, hdw]
  rw [if_neg (fun h => hlen h.1)]
  rw [if_neg (by decide : ¬ (['s'] = ([] : List Char)))]
  have hum : unitMap ['s'] = some 1000000000 := rfl
  rw [hum]
  dsimp only
  have h00 : ¬ (0 : Nat) < 0 := by omega
  rw [if_neg hv, if_neg h00]
  rw [if_neg (fun h => h00 h.1), if_neg hd]

/-- `time.ParseDuration` on a digit string (within the 64-bit bound)
followed by the unit `s`: the whole-second count scaled to nanoseconds. -/
theorem parseDuration_digits (ds : List Char) (hne : ds ≠ [])
    (hdig : ∀ c ∈ ds, c.isDigit = true) (hb : decValAux 0 ds ≤ 9223372036) :
    parseDuration (ds ++ ['s']) = some ((decValAux 0 ds * 1000000000 : Nat) : Int) := by
  obtain ⟨c, r, rfl⟩ : ∃ c r, ds = c :: r := by
    cases ds with
    | nil => exact absurd rfl hne
    | cons c r => exact ⟨c, r, rfl⟩
  have hc : c.isDigit = true := hdig c (List.mem_cons_self c r)
  have hmul : decValAux 0 (c :: r) * 1000000000 ≤ 9223372036 * 1000000000 :=
    Nat.mul_le_mul_right 1000000000 hb
  rw [List.cons_append, parseDuration]
  have hsign : consumeSign (c :: (r ++ ['s'])) = (false, c :: (r ++ ['s'])) := by
    rw [consumeSign, if_neg (isDigit_ne_dash hc), if_neg (isDigit_ne_plus hc)]
  rw [hsign]
  dsimp only
  rw [if_neg (by simp : ¬ (c :: (r ++ ['s']) = ['0'])),
      if_neg (by simp : ¬ (c :: (r ++ ['s']) = []))]
  have hli : leadingInt 0 (c :: (r ++ ['s'])) =
      some (decValAux 0 (c :: r), ['s']) :=
    leadingInt_digits (c :: r) 0 hdig hb
  have hlen : ¬ ((1 : Nat) = (c :: (r ++ ['s'])).length) := by
    simp only [List.length_cons, List.length_append, List.length_singleton]
    omega
  have hv : ¬ decValAux 0 (c :: r) > 2 ^ 63 / 1000000000 := by
    rw [pow63_eq]; omega
  have hd0 : ¬ (0 : Nat) + decValAux 0 (c :: r) * 1000000000 > 2 ^ 63 := by
    rw [pow63_eq]; omega
  rw [durLoop_seconds ((c :: (r ++ ['s'])).length) 0 (decValAux 0 (c :: r))
        c (r ++ ['s']) (Or.inr hc) hli hlen hv hd0]
  rw [List.length_cons, durLoop_nil]
  dsimp only
  rw [if_neg (by rw [pow63_eq]; omega :
        ¬ (0 : Nat) + decValAux 0 (c :: r) * 1000000000 > 2 ^ 63 - 1)]
  rw [if_neg Bool.false_ne_true, Nat.zero_add]

/-- `Duration.UnmarshalCSV` on a digit cell whose value is within the
representable bound: no error, and the receiver holds seconds scaled to
nanoseconds. -/
theorem unmarshalCSV_digits (d0 : Int) (s : String)
    (hne : s.data ≠ []) (hdig : ∀ c ∈ s.data, c.isDigit = true)
    (hb : decValAux 0 s.data ≤ 9223372036) :
    unmarshalCSV d0 s = (false, ((decValAux 0 s.data * 1000000000 : Nat) : Int)) := by
  have hs : s ≠ "" := by
    intro h; subst h; exact hne rfl
  rw [unmarshalCSV, if_neg hs, parseDuration_digits s.data hne hdig hb]

/-- `Duration.UnmarshalCSV` reports a decode error (and zeroes the
receiver) whenever the cell starts with a character that is not a digit,
a decimal point or a sign. -/
theorem unmarshalCSV_badHead (d0 : Int) (s : String) (c : Char)
    (rest : List Char) (hdata : s.data = c :: rest)
    (h1 : c.isDigit = false) (h2 : c ≠ '.') (h3 : c ≠ '+') (h4 : c ≠ '-') :
    unmarshalCSV d0 s = (true, 0) := by
  have hs : s ≠ "" := by
    intro h
    have hemp : ("" : String).data = [] := rfl
    rw [h, hemp] at hdata
    exact List.noConfusion hdata
  rw [unmarshalCSV, if_neg hs, hdata, List.cons_append]
  have hp : parseDuration (c :: (rest ++ ['s'])) = none := by
    rw [parseDuration]
    have hsign : consumeSign (c :: (rest ++ ['s'])) =
        (false, c :: (rest ++ ['s'])) := by
      rw [consumeSign, if_neg h4, if_neg h3]
    rw [hsign]
    dsimp only
    rw [if_neg (by simp : ¬ (c :: (rest ++ ['s']) = ['0'])),
        if_neg (by simp : ¬ (c :: (rest ++ ['s']) = []))]
    rw [durLoop, if_neg ?hcd]
    case hcd =>
      rintro (he | hd)
      · exact h2 he
      · rw [h1] at hd; exact Bool.false_ne_true hd
  rw [hp]

/-- The option loop: the first failing option's error propagates past any
successfully applied prefix, regardless of the options after it. -/
theorem applyOpts_append_error (post : List ConfigOption)
    (opt : ConfigOption) (e : String) :
    ∀ (pre : List ConfigOption) (c0 c : HAProxyConfig),
      applyOpts pre c0 = .ok c → opt c = .error e →
      applyOpts (pre ++ opt :: post) c0 = .error e := by
  intro pre
  induction pre with
  | nil =>
    intro c0 c hpre hopt
    rw [applyOpts] at hpre
    injection hpre with h
    subst h
    rw [List.nil_append, applyOpts, hopt]
  | cons o rest ih =>
    intro c0 c hpre hopt
    rw [applyOpts] at hpre
    rw [List.cons_append, applyOpts]
    cases ho : o c0 with
    | error e2 => rw [ho] at hpre; exact Except.noConfusion hpre
    | ok c1 =>
      rw [ho] at hpre
      dsimp only at hpre ⊢
      exact ih c1 c hpre hopt

/-- Each recognized option, when it succeeds, leaves the unexported
`setupdone` flag and the `URL` field untouched. -/
theorem toOption_preserves (sp : OptSpec) (c0 c1 : HAProxyConfig)
    (h : toOption sp c0 = .ok c1) :
    c1.setupdone = c0.setupdone ∧ c1.URL = c0.URL := by
  cases sp with
  | statsPath p =>
    injection h with h
    subst h
    exact ⟨rfl, rfl⟩
  | authString a =>
    unfold toOption WithAuthString SetCredentialsFromAuthString at h
    dsimp only at h
    cases hsp : a.splitOn ":" with
    | nil => rw [hsp] at h; exact Except.noConfusion h
    | cons u t =>
      cases t with
      | nil => rw [hsp] at h; exact Except.noConfusion h
      | cons v t2 =>
        rw [hsp] at h
        dsimp only at h
        injection h with h
        subst h
        exact ⟨rfl, rfl⟩
  | authInfo u p =>
    injection h with h
    subst h
    exact ⟨rfl, rfl⟩
  | httpClient cl =>
    injection h with h
    subst h
    exact ⟨rfl, rfl⟩

/-- Applying any list of recognized options preserves `setupdone` and
`URL`. -/
theorem applyOpts_specs_preserve (specs : List OptSpec) :
    ∀ c0 c, applyOpts (specs.map toOption) c0 = .ok c →
      c.setupdone = c0.setupdone ∧ c.URL = c0.URL := by
  induction specs with
  | nil =>
    intro c0 c h
    rw [List.map_nil, applyOpts] at h
    injection h with h
    subst h
    exact ⟨rfl, rfl⟩
  | cons sp rest ih =>
    intro c0 c h
    rw [List.map_cons, applyOpts] at h
    cases ho : toOption sp c0 with
    | error e => rw [ho] at h; exact Except.noConfusion h
    | ok c1 =>
      rw [ho] at h
      dsimp only at h
      obtain ⟨h1, h2⟩ := toOption_preserves sp c0 c1 ho
      obtain ⟨h3, h4⟩ := ih c1 c h
      exact ⟨h3.trans h1, h4.trans h2⟩

theorem setupClient_URL (c : HAProxyConfig) : (setupClient c).URL = c.URL := by
  unfold setupClient
  cases h : c.setupdone <;> simp [h]

/-- Heads surviving `dropWhile` falsify the predicate. -/
theorem dropWhile_head_eq_false {p : Char → Bool} :
    ∀ (l : List Char) (c : Char),
      (l.dropWhile p).head? = some c → p c = false := by
  intro l
  induction l with
  | nil => intro c h; exact Option.noConfusion h
  | cons a t ih =>
    intro c h
    rw [List.dropWhile_cons] at h
    by_cases hp : p a = true
    · rw [if_pos hp] at h; exact ih c h
    · rw [if_neg hp] at h
      injection h with h
      subst h
      simpa using hp

/-! ## Claims -/

/-- C1 (amended): for every non-empty decimal-digit string `s` whose value
is at most 9223372036 — the largest whole-second count whose nanosecond
equivalent fits Go's signed 64-bit `time.Duration` — decoding with
`UnmarshalCSV` succeeds and re-encoding with `MarshalCSV` yields the
decimal string of `s`'s value multiplied by 1e9 (seconds in, nanoseconds
out — the intentionally asymmetric, non-round-trip pair). -/
theorem duration_roundtrip_scaled (d0 : Int) (s : String)
    (hne : s.data ≠ []) (hdig : ∀ c ∈ s.data, c.isDigit = true)
    (hb : decValAux 0 s.data ≤ 9223372036) :
    (unmarshalCSV d0 s).1 = false ∧
    marshalCSV (unmarshalCSV d0 s).2 =
      toString (decValAux 0 s.data * 1000000000) := by
  rw [unmarshalCSV_digits d0 s hne hdig hb]
  exact ⟨rfl, rfl⟩

/-- Witness for C1's theorem at the concrete cell "3". -/
theorem duration_roundtrip_scaled_witness :
    (unmarshalCSV 0 "3").1 = false ∧
    marshalCSV (unmarshalCSV 0 "3").2 =
      toString (decValAux 0 ("3" : String).data * 1000000000) :=
  duration_roundtrip_scaled 0 "3" (by decide) (by decide) (by decide)

/-- C1 counterexample: "9223372037" is a non-negative integer string, yet
`UnmarshalCSV` reports an error (9223372037 seconds overflows the signed
64-bit nanosecond range inside `time.ParseDuration`) and zeroes the
receiver, so decode-then-reencode produces "0", not the value scaled by
1e9. -/
theorem duration_roundtrip_cex :
    (∀ c ∈ ("9223372037" : String).data, c.isDigit = true) ∧
    unmarshalCSV 0 "9223372037" = (true, 0) ∧
    marshalCSV (unmarshalCSV 0 "9223372037").2 ≠
      toString (decValAux 0 ("9223372037" : String).data * 1000000000) := by
  decide

/-- C2 (amended): non-empty cells whose first character is not a digit,
a decimal point or a sign are decode errors; every decimal-digit cell with
value at most 9223372036 decodes successfully, interpreted as a count of
whole seconds (stored as seconds times 1e9 nanoseconds). -/
theorem duration_decode_classes :
    (∀ (d0 : Int) (s : String) (c : Char) (rest : List Char),
      s.data = c :: rest → c.isDigit = false → c ≠ '.' → c ≠ '+' → c ≠ '-' →
      unmarshalCSV d0 s = (true, 0)) ∧
    (∀ (d0 : Int) (s : String), s.data ≠ [] →
      (∀ c ∈ s.data, c.isDigit = true) → decValAux 0 s.data ≤ 9223372036 →
      unmarshalCSV d0 s =
        (false, ((decValAux 0 s.data * 1000000000 : Nat) : Int))) :=
  ⟨fun d0 s c rest hd h1 h2 h3 h4 =>
      unmarshalCSV_badHead d0 s c rest hd h1 h2 h3 h4,
   fun d0 s hne hdig hb => unmarshalCSV_digits d0 s hne hdig hb⟩

/-- Witness for C2's theorem: the cell "UP" is a decode error, the cell
"7" decodes to seven seconds. -/
theorem duration_decode_classes_witness :
    unmarshalCSV 0 "UP" = (true, 0) ∧
    unmarshalCSV 0 "7" =
      (false, ((decValAux 0 ("7" : String).data * 1000000000 : Nat) : Int)) :=
  ⟨duration_decode_classes.1 0 "UP" 'U' ['P'] (by decide) (by decide)
      (by decide) (by decide) (by decide),
   duration_decode_classes.2 0 "7" (by decide) (by decide) (by decide)⟩

/-- C2 counterexample: the cell "1m" is non-empty and non-numeric ('m' is
not a digit), yet `UnmarshalCSV` succeeds — appending "s" yields the valid
Go duration literal "1ms", decoded as one millisecond — refuting "every
non-empty, non-numeric string is a decode error". -/
theorem duration_decode_cex :
    ('m'.isDigit = false) ∧
    ¬ (∀ c ∈ ("1m" : String).data, c.isDigit = true) ∧
    unmarshalCSV 0 "1m" = (false, 1000000) := by decide

/-- C3: a `type` cell carrying ordinal 0, 1, 2 or 3 decodes to Frontend,
Backend, Server, Socket respectively; any out-of-range ordinal (such as 4)
is a decode error. -/
theorem entryType_ordinal_decode :
    decodeEntryType 0 = some EntryType.Frontend ∧
    decodeEntryType 1 = some EntryType.Backend ∧
    decodeEntryType 2 = some EntryType.Server ∧
    decodeEntryType 3 = some EntryType.Socket ∧
    decodeEntryType 4 = none ∧
    (∀ n : Nat, 3 < n → decodeEntryType n = none) := by
  refine ⟨rfl, rfl, rfl, rfl, rfl, ?_⟩
  intro n h
  obtain ⟨m, rfl⟩ : ∃ m, n = m + 4 := ⟨n - 4, by omega⟩
  rfl

/-- Witness for C3's theorem at the out-of-range ordinal 9. -/
theorem entryType_ordinal_decode_witness :
    (3 : Nat) < 9 ∧ decodeEntryType 9 = none :=
  ⟨by norm_num, entryType_ordinal_decode.2.2.2.2.2 9 (by norm_num)⟩

/-- C4 counterexample: `models.go` declares five health-check toggle
constants but only four agent-check toggle constants — there is no agent
counterpart of force-no-lb — refuting "the same five variants as the
health-check toggles". -/
theorem agent_toggles_cex :
    healthToggleConstants.length = 5 ∧ agentToggleConstants.length = 4 ∧
    agentToggleConstants.length ≠ healthToggleConstants.length := by decide

/-- C4 (amended): the Action enumeration contains, for the agent-check
toggles, four variants (disable, enable, force-up, force-down), each a
fixed distinct string token; the full constant block holds thirteen
distinct tokens, with no fifth agent toggle. -/
theorem agent_toggle_variants :
    agentToggleConstants = ["dagent", "eagent", "arunn", "adown"] ∧
    ActionAgentDisablechecks = "dagent" ∧
    ActionAgentEnablechecks = "eagent" ∧
    ActionAgentForceUp = "arunn" ∧
    ActionAgentForceDown = "adown" ∧
    actionConstants.length = 13 ∧ actionConstants.Nodup := by decide

/-- C5: `NewHAProxyConfig` applies the options in the order given; when an
option fails, construction stops at that option and returns exactly its
error with no config value — the options after it are never applied. -/
theorem newConfig_first_error (urlParse : String → Except String String)
    (proxyUrl : String) (pre post : List ConfigOption) (opt : ConfigOption)
    (endpoint : String) (c : HAProxyConfig) (e : String)
    (hu : urlParse (normalizeBase proxyUrl) = .ok endpoint)
    (hpre : applyOpts pre (initConfig endpoint) = .ok c)
    (hopt : opt c = .error e) :
    newHAProxyConfig urlParse proxyUrl (pre ++ opt :: post) = .error e := by
  unfold newHAProxyConfig
  rw [hu]
  dsimp only
  rw [applyOpts_append_error post opt e pre (initConfig endpoint) c hpre hopt]

/-- Witness for C5 with a failing option in second position, followed by a
further option that is never applied. -/
theorem newConfig_first_error_witness :
    newHAProxyConfig (fun u => .ok u) "http://h"
      ([WithStatsPath "csv"] ++
        (fun _ => Except.error "boom") :: [WithStatsPath "zzz"]) =
      .error "boom" :=
  newConfig_first_error (fun u => .ok u) "http://h" [WithStatsPath "csv"]
    [WithStatsPath "zzz"] (fun _ => Except.error "boom") "http://h/"
    { URL := "http://h/", StatsPath := "csv", Username := "", Password := "",
      client := none, setupdone := false } "boom" rfl rfl rfl

/-- C6: every config built successfully by `NewHAProxyConfig` from the
recognized options — with or without an injected client — carries a client
whose redirect check uses the literal last response (no auto-follow). -/
theorem built_config_no_redirects (urlParse : String → Except String String)
    (proxyUrl : String) (specs : List OptSpec) (c : HAProxyConfig)
    (h : newHAProxyConfig urlParse proxyUrl (specs.map toOption) = .ok c) :
    ∃ cl : HttpClient, c.client = some cl ∧
      cl.checkRedirect = RedirectPolicy.useLastResponse := by
  unfold newHAProxyConfig at h
  cases hu : urlParse (normalizeBase proxyUrl) with
  | error e => rw [hu] at h; exact Except.noConfusion h
  | ok endpoint =>
    rw [hu] at h
    dsimp only at h
    cases ha : applyOpts (specs.map toOption) (initConfig endpoint) with
    | error e => rw [ha] at h; exact Except.noConfusion h
    | ok c1 =>
      rw [ha] at h
      dsimp only at h
      injection h with h
      subst h
      have hsd : c1.setupdone = false :=
        (applyOpts_specs_preserve specs (initConfig endpoint) c1 ha).1
      unfold setupClient
      rw [if_neg (by rw [hsd]; exact Bool.false_ne_true)]
      exact ⟨_, rfl, rfl⟩

/-- Witness for C6: building with an injected client carrying a custom
redirect policy still ends at the use-last-response policy. -/
theorem built_config_no_redirects_witness :
    ∃ cl : HttpClient,
      (HAProxyConfig.mk "http://h/" "" "" ""
          (some (HttpClient.mk 7 RedirectPolicy.useLastResponse 1 99))
          true).client = some cl ∧
      cl.checkRedirect = RedirectPolicy.useLastResponse :=
  built_config_no_redirects (fun u => .ok u) "http://h"
    [OptSpec.httpClient (some (HttpClient.mk 7 (RedirectPolicy.custom 3) 1 99))]
    (HAProxyConfig.mk "http://h/" "" "" ""
      (some (HttpClient.mk 7 RedirectPolicy.useLastResponse 1 99)) true) rfl

/-- C7: transport setup is idempotent — a second `setupClient` finds
`setupdone` already set and returns the config entirely unchanged, so it
neither re-wraps the redirect policy nor replaces the client or any of its
other settings. -/
theorem setupClient_idem (c : HAProxyConfig) :
    setupClient (setupClient c) = setupClient c := by
  unfold setupClient
  cases h : c.setupdone <;> simp [h]

/-- Witness for C7 at a concrete config with an injected client. -/
theorem setupClient_idem_witness :
    setupClient (setupClient
      (HAProxyConfig.mk "http://h/" "" "" ""
        (some (HttpClient.mk 7 (RedirectPolicy.custom 3) 1 99)) false)) =
    setupClient
      (HAProxyConfig.mk "http://h/" "" "" ""
        (some (HttpClient.mk 7 (RedirectPolicy.custom 3) 1 99)) false) :=
  setupClient_idem
    (HAProxyConfig.mk "http://h/" "" "" ""
      (some (HttpClient.mk 7 (RedirectPolicy.custom 3) 1 99)) false)

/-- C8: the base-URL normalization of `NewHAProxyConfig` always produces a
string ending in exactly one slash (all existing trailing slashes collapsed
to one, one added when absent); the stored `URL` of a successfully built
config is exactly the parse of that normalized string (recognized options
never alter it); and the example base joined with stats-path "csv" resolves
with no double slash. -/
theorem base_url_single_slash :
    (∀ s : String, ∃ p : List Char,
      (normalizeBase s).data = p ++ ['/'] ∧ p.getLast? ≠ some '/') ∧
    (∀ (urlP : String → Except String String) (s endpoint : String)
        (specs : List OptSpec) (c : HAProxyConfig),
      urlP (normalizeBase s) = .ok endpoint →
      newHAProxyConfig urlP s (specs.map toOption) = .ok c →
      c.URL = endpoint) ∧
    Except.map resolvedTarget
      (newHAProxyConfig (fun u => .ok u) "http://host:8080/stats"
        [toOption (OptSpec.statsPath "csv")]) =
      .ok "http://host:8080/stats/csv" := by
  refine ⟨?_, ?_, rfl⟩
  · intro s
    refine ⟨(s.data.reverse.dropWhile fun c => c = '/').reverse, rfl, ?_⟩
    rw [List.getLast?_reverse]
    intro hh
    have hfalse := dropWhile_head_eq_false s.data.reverse '/' hh
    exact absurd hfalse (by decide)
  · intro urlP s endpoint specs c hu h
    unfold newHAProxyConfig at h
    rw [hu] at h
    dsimp only at h
    cases ha : applyOpts (specs.map toOption) (initConfig endpoint) with
    | error e => rw [ha] at h; exact Except.noConfusion h
    | ok c1 =>
      rw [ha] at h
      dsimp only at h
      injection h with h
      subst h
      rw [setupClient_URL]
      exact (applyOpts_specs_preserve specs (initConfig endpoint) c1 ha).2

/-- Witness for C8's stored-URL conjunct at the example base URL with the
stats-path option applied. -/
theorem base_url_single_slash_witness :
    (HAProxyConfig.mk "http://host:8080/stats/" "csv" "" ""
        (some (HttpClient.mk 0 RedirectPolicy.useLastResponse 0 0))
        true).URL = "http://host:8080/stats/" :=
  base_url_single_slash.2.1 (fun u => .ok u) "http://host:8080/stats"
    "http://host:8080/stats/" [OptSpec.statsPath "csv"]
    (HAProxyConfig.mk "http://host:8080/stats/" "csv" "" ""
      (some (HttpClient.mk 0 RedirectPolicy.useLastResponse 0 0)) true)
    rfl rfl

/-- C9: an empty Duration cell decodes without error, leaves a
zero-initialized receiver at the zero duration, and the zero duration
renders as "0s". -/
theorem empty_cell_zero_duration :
    unmarshalCSV 0 "" = (false, 0) ∧ durationString 0 = "0s" := by decide

/-- C10: `UnmarshalCSV` accepts more than non-negative whole-second
integers: "-5" decodes, without error, to minus five seconds and "1.5" to
one and a half seconds (negative, respectively fractional, nanosecond
counts). -/
theorem unmarshal_negative_fractional :
    unmarshalCSV 0 "-5" = (false, -5000000000) ∧
    unmarshalCSV 0 "1.5" = (false, 1500000000) := by decide

end Haproxyctl
